import Mathlib

/-!
Shallow embedding of the transaction processor from `src/processor.rs` of
MarekSosnicki/transaction-processor.

Modelling conventions:
* Rust `f64` monetary values are modelled as exact rationals `ℚ`; every f64
  is a rational, and the arithmetic the processor performs on amounts
  (multiplication by the constant 10000, rounding, division by 10000,
  comparison) is exact at the magnitudes of interest, so the idealisation is
  faithful for the properties considered here.
* Rust `i64` internal amounts are modelled as `ℤ`; balances never approach
  2^63 at 4-decimal precision, as the source notes.
* `HashMap` is modelled as an association list; every observable of the
  processor (sums over values, existence checks, lookup, and the sorted
  summary) is independent of the iteration order, so the choice of a
  concrete order is irrelevant.
* In-place mutation through `&mut` is modelled by computing the updated
  value and writing it back into the map.
-/

/-- Rust `type AmountType = i64;`. -/
abbrev AmountType := Int

/-- Rust `type ClientId = u64;` — an opaque key. -/
abbrev ClientId := Nat

/-- Rust `type TransactionId = u64;` — an opaque key. -/
abbrev TransactionId := Nat

/-- Rust `f64::round`: round half away from zero. -/
def roundHalfAwayFromZero (v : ℚ) : ℤ :=
  if 0 ≤ v then ⌊v + 1 / 2⌋ else -⌊-v + 1 / 2⌋

/-- Rust `fn f64_to_amount_type(v: f64) -> AmountType { (v * PRECISION).round() as AmountType }`
with `PRECISION = 10000.0`. -/
def f64_to_amount_type (v : ℚ) : AmountType :=
  roundHalfAwayFromZero (v * 10000)

/-- Rust `fn amount_type_to_f64(v: AmountType) -> f64 { (v as f64) / PRECISION }`. -/
def amount_type_to_f64 (v : AmountType) : ℚ :=
  (v : ℚ) / 10000

/-- Rust `enum TransactionStatus`. -/
inductive TransactionStatus where
  | Processed
  | UnderDispute
  | ChargeBack
deriving DecidableEq, Repr

/-- Rust `struct TransactionRecord`. -/
structure TransactionRecord where
  amount : AmountType
  status : TransactionStatus
deriving DecidableEq, Repr

/-- Rust `enum TransactionType` from `models.rs`. -/
inductive TransactionType where
  | Deposit
  | Withdrawal
  | Dispute
  | Resolve
  | Chargeback
deriving DecidableEq, Repr

/-- Rust `struct Transaction` from `models.rs`. -/
structure Transaction where
  transaction_type : TransactionType
  client : ClientId
  transaction_id : TransactionId
  amount : Option ℚ
deriving DecidableEq, Repr

/-- Rust `struct ClientSummary` from `models.rs`. -/
structure ClientSummary where
  client : ClientId
  available : ℚ
  held : ℚ
  total : ℚ
  locked : Bool
deriving DecidableEq, Repr

instance : IsTotal ClientSummary (fun a b => a.client ≤ b.client) :=
  ⟨fun a b => Nat.le_total a.client b.client⟩

instance : IsTrans ClientSummary (fun a b => a.client ≤ b.client) :=
  ⟨fun _ _ _ hab hbc => Nat.le_trans hab hbc⟩

/-- Association-list lookup, modelling `HashMap::get`. -/
def alookup {α β : Type} [DecidableEq α] : List (α × β) → α → Option β
  | [], _ => none
  | (k, v) :: rest, a => if k = a then some v else alookup rest a

/-- Association-list insert-or-replace, modelling `HashMap::insert` (and
in-place mutation of an entry obtained by `get_mut` / `entry`). -/
def aupdate {α β : Type} [DecidableEq α] : List (α × β) → α → β → List (α × β)
  | [], a, b => [(a, b)]
  | (k, v) :: rest, a, b =>
      if k = a then (a, b) :: rest else (k, v) :: aupdate rest a b

/-- Rust `struct ClientData { transactions_history: HashMap<TransactionId, TransactionRecord> }`. -/
structure ClientData where
  transactions_history : List (TransactionId × TransactionRecord)
deriving DecidableEq, Repr

instance : Inhabited ClientData := ⟨⟨[]⟩⟩

namespace ClientData

/-- Sum of stored amounts over the records with the given status; this is the
integer summation inside `ClientData::available` / `ClientData::held`. -/
def sumWithStatus (d : ClientData) (s : TransactionStatus) : AmountType :=
  ((d.transactions_history.filter (fun kv => kv.2.status == s)).map
    (fun kv => kv.2.amount)).sum

/-- Rust `ClientData::available`: decimal form of the sum over `Processed` records. -/
def available (d : ClientData) : ℚ :=
  amount_type_to_f64 (d.sumWithStatus .Processed)

/-- Rust `ClientData::held`: decimal form of the sum over `UnderDispute` records. -/
def held (d : ClientData) : ℚ :=
  amount_type_to_f64 (d.sumWithStatus .UnderDispute)

/-- Rust `ClientData::locked`: any record has status `ChargeBack`. -/
def locked (d : ClientData) : Bool :=
  d.transactions_history.any (fun kv => kv.2.status == .ChargeBack)

end ClientData

/-- Rust `enum TransactionProcessError`. -/
inductive TransactionProcessError where
  | NotEnoughFoundsAvailable
  | MissingAmountValue
  | NonPositiveAmountInTransaction
  | TransactionNotFound
  | TransactionAlreadyUnderDispute
  | CannotDisputeWithdrawal
  | TransactionNotUnderDispute
  | AccountLocked
  | TransactionAlreadyProcessed
deriving DecidableEq, Repr

instance : DecidableEq (Except TransactionProcessError Unit) := fun a b =>
  match a, b with
  | .ok (), .ok () => isTrue rfl
  | .error e, .error f =>
      if h : e = f then isTrue (h ▸ rfl) else isFalse (fun hc => h (by injection hc))
  | .ok (), .error _ => isFalse (fun hc => by injection hc)
  | .error _, .ok () => isFalse (fun hc => by injection hc)

/-- Rust `struct TransactionsProcessor { clients_data: HashMap<ClientId, ClientData> }`. -/
structure TransactionsProcessor where
  clients_data : List (ClientId × ClientData)
deriving DecidableEq, Repr

namespace TransactionsProcessor

/-- Rust `TransactionsProcessor::default()`. -/
def empty : TransactionsProcessor := ⟨[]⟩

/-- The client entry `process` works on:
`self.clients_data.entry(transaction.client).or_default()` yields the stored
data when present and a default (empty) `ClientData` otherwise. -/
def getClient (p : TransactionsProcessor) (c : ClientId) : ClientData :=
  (alookup p.clients_data c).getD ⟨[]⟩

/-- The body of `TransactionsProcessor::process` acting on the entry of the
addressed client: returns the client's new data together with the result.
Mutation of the entry through `&mut` is modelled by returning the updated
`ClientData`; on an error path the entry is returned unchanged. Guards appear
in exactly the order of the source. -/
def applyToClient (client_entry : ClientData) (t : Transaction) :
    ClientData × Except TransactionProcessError Unit :=
  -- Return immediately if account is locked
  if client_entry.locked then (client_entry, .error .AccountLocked)
  else
    match t.transaction_type with
    | .Deposit =>
      match t.amount with
      | none => (client_entry, .error .MissingAmountValue)
      | some amount =>
        if ¬ 0 < amount then (client_entry, .error .NonPositiveAmountInTransaction)
        else if (alookup client_entry.transactions_history t.transaction_id).isSome then
          (client_entry, .error .TransactionAlreadyProcessed)
        else
          (⟨aupdate client_entry.transactions_history t.transaction_id
              ⟨f64_to_amount_type amount, .Processed⟩⟩, .ok ())
    | .Withdrawal =>
      match t.amount with
      | none => (client_entry, .error .MissingAmountValue)
      | some amount =>
        if ¬ 0 < amount then (client_entry, .error .NonPositiveAmountInTransaction)
        else if ¬ amount ≤ client_entry.available then
          (client_entry, .error .NotEnoughFoundsAvailable)
        else if (alookup client_entry.transactions_history t.transaction_id).isSome then
          (client_entry, .error .TransactionAlreadyProcessed)
        else
          -- Withdrawals are saved as Transaction records with negative values
          (⟨aupdate client_entry.transactions_history t.transaction_id
              ⟨f64_to_amount_type (-amount), .Processed⟩⟩, .ok ())
    | .Dispute =>
      match alookup client_entry.transactions_history t.transaction_id with
      | none => (client_entry, .error .TransactionNotFound)
      | some entry =>
        if ¬ entry.status = .Processed then
          (client_entry, .error .TransactionAlreadyUnderDispute)
        else if ¬ 0 < entry.amount then
          (client_entry, .error .CannotDisputeWithdrawal)
        else
          (⟨aupdate client_entry.transactions_history t.transaction_id
              ⟨entry.amount, .UnderDispute⟩⟩, .ok ())
    | .Resolve =>
      match alookup client_entry.transactions_history t.transaction_id with
      | none => (client_entry, .error .TransactionNotFound)
      | some entry =>
        if ¬ entry.status = .UnderDispute then
          (client_entry, .error .TransactionNotUnderDispute)
        else
          (⟨aupdate client_entry.transactions_history t.transaction_id
              ⟨entry.amount, .Processed⟩⟩, .ok ())
    | .Chargeback =>
      match alookup client_entry.transactions_history t.transaction_id with
      | none => (client_entry, .error .TransactionNotFound)
      | some entry =>
        if ¬ entry.status = .UnderDispute then
          (client_entry, .error .TransactionNotUnderDispute)
        else
          (⟨aupdate client_entry.transactions_history t.transaction_id
              ⟨entry.amount, .ChargeBack⟩⟩, .ok ())

/-- `TransactionsProcessor::process`: `entry(...).or_default()` materialises
the addressed client's entry (an empty `ClientData` when absent) and the
per-kind logic then reads and mutates that entry, so the post state always
stores the (possibly unchanged) entry back under `transaction.client`. -/
def process (p : TransactionsProcessor) (t : Transaction) :
    TransactionsProcessor × Except TransactionProcessError Unit :=
  let client_entry := p.getClient t.client
  let r := applyToClient client_entry t
  (⟨aupdate p.clients_data t.client r.1⟩, r.2)

/-- Sequential replay of a list of transactions, each result discarded, as the
driver loop in `lib.rs` does. -/
def processAll (p : TransactionsProcessor) (ts : List Transaction) :
    TransactionsProcessor :=
  ts.foldl (fun q t => (q.process t).1) p

/-- Rust `TransactionsProcessor::summary`. -/
def summary (p : TransactionsProcessor) : List ClientSummary :=
  (p.clients_data.map fun kv =>
    let available := kv.2.available
    let held := kv.2.held
    { client := kv.1
      available := available
      held := held
      total := held + available
      locked := kv.2.locked }).insertionSort (fun a b => a.client ≤ b.client)

/-- The observable account snapshot of one client, assembled exactly the way
`summary` builds each row. -/
def snapshotOf (p : TransactionsProcessor) (c : ClientId) : ClientSummary :=
  let d := p.getClient c
  { client := c
    available := d.available
    held := d.held
    total := d.held + d.available
    locked := d.locked }

/-- Keys of the client map are pairwise distinct. -/
def KeysNodup (p : TransactionsProcessor) : Prop :=
  (p.clients_data.map Prod.fst).Nodup

end TransactionsProcessor

/-- The states reachable from `TransactionsProcessor::default()` by a sequence
of `process` calls. -/
inductive Reachable : TransactionsProcessor → Prop where
  | init : Reachable TransactionsProcessor.empty
  | step (p : TransactionsProcessor) (t : Transaction) :
      Reachable p → Reachable (p.process t).1

/-! ## Basic lemmas about the association-list operations -/

section AssocList

variable {α β : Type} [DecidableEq α]

theorem alookup_aupdate_self (l : List (α × β)) (k : α) (v : β) :
    alookup (aupdate l k v) k = some v := by
  induction l with
  | nil => simp [alookup, aupdate]
  | cons kv rest ih =>
    obtain ⟨k', v'⟩ := kv
    by_cases h : k' = k <;> simp [alookup, aupdate, h, ih]

theorem alookup_aupdate_ne {c k : α} (l : List (α × β)) (v : β) (h : c ≠ k) :
    alookup (aupdate l k v) c = alookup l c := by
  have h' : ¬ k = c := fun hc => h hc.symm
  induction l with
  | nil => simp [alookup, aupdate, h']
  | cons kv rest ih =>
    obtain ⟨k', v'⟩ := kv
    by_cases hk : k' = k
    · subst hk
      simp [alookup, aupdate, h']
    · by_cases hc : k' = c <;> simp [alookup, aupdate, hk, hc, ih, h]

theorem aupdate_eq_self {l : List (α × β)} {k : α} {v : β}
    (h : alookup l k = some v) : aupdate l k v = l := by
  induction l with
  | nil => simp [alookup] at h
  | cons kv rest ih =>
    obtain ⟨k', v'⟩ := kv
    by_cases hk : k' = k
    · subst hk
      simp [alookup] at h
      simp [aupdate, h]
    · simp [alookup, hk] at h
      simp [aupdate, hk, ih h]

theorem aupdate_aupdate (l : List (α × β)) (k : α) (v w : β) :
    aupdate (aupdate l k v) k w = aupdate l k w := by
  induction l with
  | nil => simp [aupdate]
  | cons kv rest ih =>
    obtain ⟨k', v'⟩ := kv
    by_cases hk : k' = k <;> simp [aupdate, hk, ih]

theorem mem_of_alookup_eq_some {l : List (α × β)} {k : α} {v : β}
    (h : alookup l k = some v) : (k, v) ∈ l := by
  induction l with
  | nil => simp [alookup] at h
  | cons kv rest ih =>
    obtain ⟨k', v'⟩ := kv
    by_cases hk : k' = k
    · subst hk
      simp [alookup] at h
      simp [h]
    · simp [alookup, hk] at h
      simp [ih h]

theorem alookup_eq_none_iff {l : List (α × β)} {k : α} :
    alookup l k = none ↔ k ∉ l.map Prod.fst := by
  induction l with
  | nil => simp [alookup]
  | cons kv rest ih =>
    obtain ⟨k', v'⟩ := kv
    by_cases hk : k' = k
    · subst hk
      simp [alookup]
    · simp [alookup, hk, ih, Ne.symm hk]

theorem alookup_isSome_iff {l : List (α × β)} {k : α} :
    (alookup l k).isSome = true ↔ k ∈ l.map Prod.fst := by
  rcases h : alookup l k with _ | v
  · simp [alookup_eq_none_iff.mp h]
  · simp only [Option.isSome_some, true_iff]
    exact (List.mem_map).mpr ⟨(k, v), mem_of_alookup_eq_some h, rfl⟩

theorem alookup_of_mem_of_nodup {l : List (α × β)} {k : α} {v : β}
    (hnd : (l.map Prod.fst).Nodup) (hm : (k, v) ∈ l) : alookup l k = some v := by
  induction l with
  | nil => simp at hm
  | cons kv rest ih =>
    obtain ⟨k', v'⟩ := kv
    simp only [List.map_cons, List.nodup_cons] at hnd
    rcases List.mem_cons.mp hm with h | h
    · injection h with h1 h2
      subst h1
      subst h2
      simp [alookup]
    · have hne : k' ≠ k := by
        intro he
        exact hnd.1 (he ▸ (List.mem_map).mpr ⟨(k, v), h, rfl⟩)
      simp [alookup, hne, ih hnd.2 h]

theorem aupdate_of_alookup_none {l : List (α × β)} {k : α} (v : β)
    (h : alookup l k = none) : aupdate l k v = l ++ [(k, v)] := by
  induction l with
  | nil => simp [aupdate]
  | cons kv rest ih =>
    obtain ⟨k', v'⟩ := kv
    by_cases hk : k' = k
    · subst hk
      simp [alookup] at h
    · simp [alookup, hk] at h
      simp [aupdate, hk, ih h]

theorem mem_aupdate {l : List (α × β)} {k : α} {v : β} {kv : α × β}
    (h : kv ∈ aupdate l k v) : kv = (k, v) ∨ kv ∈ l := by
  induction l with
  | nil => simp [aupdate] at h; exact .inl h
  | cons kv' rest ih =>
    obtain ⟨k', v'⟩ := kv'
    by_cases hk : k' = k
    · subst hk
      simp only [aupdate, if_pos rfl] at h
      rcases List.mem_cons.mp h with h | h
      · exact .inl h
      · exact .inr (List.mem_cons_of_mem _ h)
    · simp only [aupdate, if_neg hk] at h
      rcases List.mem_cons.mp h with h | h
      · exact .inr (h ▸ List.mem_cons_self _ _)
      · rcases ih h with h | h
        · exact .inl h
        · exact .inr (List.mem_cons_of_mem _ h)

theorem map_fst_aupdate_mem {l : List (α × β)} {k : α} (v : β)
    (h : k ∈ l.map Prod.fst) : (aupdate l k v).map Prod.fst = l.map Prod.fst := by
  induction l with
  | nil => simp at h
  | cons kv rest ih =>
    obtain ⟨k', v'⟩ := kv
    by_cases hk : k' = k
    · simp [aupdate, hk]
    · simp only [List.map_cons, List.mem_cons] at h
      rcases h with h | h
      · exact absurd h.symm hk
      · simp [aupdate, hk, ih h]

theorem map_fst_aupdate_not_mem {l : List (α × β)} {k : α} (v : β)
    (h : k ∉ l.map Prod.fst) : (aupdate l k v).map Prod.fst = l.map Prod.fst ++ [k] := by
  rw [aupdate_of_alookup_none v (alookup_eq_none_iff.mpr h)]
  simp

end AssocList

/-! ## Lemmas about derived client quantities -/

namespace ClientData

theorem sumWithStatus_mk_nil (s : TransactionStatus) :
    (⟨[]⟩ : ClientData).sumWithStatus s = 0 := rfl

theorem sumWithStatus_mk_cons (kv : TransactionId × TransactionRecord)
    (l : List (TransactionId × TransactionRecord)) (s : TransactionStatus) :
    (⟨kv :: l⟩ : ClientData).sumWithStatus s =
      (if kv.2.status = s then kv.2.amount else 0) + (⟨l⟩ : ClientData).sumWithStatus s := by
  by_cases h : kv.2.status = s <;>
    simp [sumWithStatus, List.filter_cons, h]

theorem sumWithStatus_mk_append (l₁ l₂ : List (TransactionId × TransactionRecord))
    (s : TransactionStatus) :
    (⟨l₁ ++ l₂⟩ : ClientData).sumWithStatus s =
      (⟨l₁⟩ : ClientData).sumWithStatus s + (⟨l₂⟩ : ClientData).sumWithStatus s := by
  simp [sumWithStatus, List.filter_append]

theorem sumWithStatus_aupdate {l : List (TransactionId × TransactionRecord)}
    {k : TransactionId} {r : TransactionRecord} (v : TransactionRecord)
    (h : alookup l k = some r) (s : TransactionStatus) :
    (⟨aupdate l k v⟩ : ClientData).sumWithStatus s =
      (⟨l⟩ : ClientData).sumWithStatus s
        - (if r.status = s then r.amount else 0)
        + (if v.status = s then v.amount else 0) := by
  induction l with
  | nil => simp [alookup] at h
  | cons kv rest ih =>
    obtain ⟨k', v'⟩ := kv
    by_cases hk : k' = k
    · subst hk
      simp [alookup] at h
      subst h
      have ha : aupdate ((k', v') :: rest) k' v = (k', v) :: rest := by simp [aupdate]
      rw [ha, sumWithStatus_mk_cons, sumWithStatus_mk_cons]
      ring
    · simp only [alookup, if_neg hk] at h
      simp only [aupdate, if_neg hk]
      rw [sumWithStatus_mk_cons, sumWithStatus_mk_cons, ih h]
      ring

theorem locked_eq_true_iff (d : ClientData) :
    d.locked = true ↔ ∃ kv ∈ d.transactions_history, kv.2.status = .ChargeBack := by
  simp [locked, List.any_eq_true]

theorem locked_eq_false_iff (d : ClientData) :
    d.locked = false ↔ ∀ kv ∈ d.transactions_history, kv.2.status ≠ .ChargeBack := by
  rw [← Bool.not_eq_true, locked_eq_true_iff]
  push_neg
  rfl

end ClientData

/-! ## Lemmas about `process` -/

namespace TransactionsProcessor

theorem process_fst (p : TransactionsProcessor) (t : Transaction) :
    (p.process t).1 = ⟨aupdate p.clients_data t.client (applyToClient (p.getClient t.client) t).1⟩ :=
  rfl

theorem process_snd (p : TransactionsProcessor) (t : Transaction) :
    (p.process t).2 = (applyToClient (p.getClient t.client) t).2 :=
  rfl

theorem getClient_process_self (p : TransactionsProcessor) (t : Transaction) :
    (p.process t).1.getClient t.client = (applyToClient (p.getClient t.client) t).1 := by
  simp [process_fst, getClient, alookup_aupdate_self]

theorem getClient_process_ne (p : TransactionsProcessor) (t : Transaction) {c : ClientId}
    (h : c ≠ t.client) : (p.process t).1.getClient c = p.getClient c := by
  simp [process_fst, getClient, alookup_aupdate_ne _ _ h]

theorem snapshotOf_eq_of_getClient_eq {p q : TransactionsProcessor} {c : ClientId}
    (h : p.getClient c = q.getClient c) : p.snapshotOf c = q.snapshotOf c := by
  simp [snapshotOf, h]

theorem applyToClient_locked {d : ClientData} (t : Transaction) (h : d.locked = true) :
    applyToClient d t = (d, .error .AccountLocked) := by
  simp [applyToClient, h]

theorem applyToClient_shape (d : ClientData) (t : Transaction) :
    (applyToClient d t).1 = d ∨ (applyToClient d t).2 = .ok () := by
  unfold applyToClient
  repeat' first
    | exact Or.inl rfl
    | exact Or.inr rfl
    | split

theorem applyToClient_fst_of_error {d : ClientData} {t : Transaction}
    {e : TransactionProcessError} (h : (applyToClient d t).2 = .error e) :
    (applyToClient d t).1 = d := by
  rcases applyToClient_shape d t with h1 | h1
  · exact h1
  · rw [h1] at h
    simp at h

theorem applyToClient_deposit {d : ClientData} {c : ClientId} {id : TransactionId} {a : ℚ}
    (hnl : d.locked = false) (ha : 0 < a)
    (hfresh : alookup d.transactions_history id = none) :
    applyToClient d ⟨.Deposit, c, id, some a⟩ =
      (⟨aupdate d.transactions_history id ⟨f64_to_amount_type a, .Processed⟩⟩, .ok ()) := by
  simp [applyToClient, hnl, ha, hfresh]

theorem applyToClient_withdrawal {d : ClientData} {c : ClientId} {id : TransactionId} {a : ℚ}
    (hnl : d.locked = false)
    (hfresh : alookup d.transactions_history id = none) :
    applyToClient d ⟨.Withdrawal, c, id, some a⟩ =
      if 0 < a ∧ a ≤ d.available then
        (⟨aupdate d.transactions_history id ⟨f64_to_amount_type (-a), .Processed⟩⟩, .ok ())
      else if ¬ 0 < a then (d, .error .NonPositiveAmountInTransaction)
      else (d, .error .NotEnoughFoundsAvailable) := by
  by_cases h1 : 0 < a <;> by_cases h2 : a ≤ d.available <;>
    simp [applyToClient, hnl, hfresh, h1, h2]

theorem applyToClient_dispute_found {d : ClientData} {c : ClientId} {id : TransactionId}
    {aopt : Option ℚ} {r : TransactionRecord}
    (hnl : d.locked = false)
    (hf : alookup d.transactions_history id = some r) :
    applyToClient d ⟨.Dispute, c, id, aopt⟩ =
      if ¬ r.status = .Processed then (d, .error .TransactionAlreadyUnderDispute)
      else if ¬ 0 < r.amount then (d, .error .CannotDisputeWithdrawal)
      else (⟨aupdate d.transactions_history id ⟨r.amount, .UnderDispute⟩⟩, .ok ()) := by
  by_cases h1 : r.status = .Processed <;> by_cases h2 : 0 < r.amount <;>
    simp [applyToClient, hnl, hf, h1, h2]

theorem applyToClient_resolve_found {d : ClientData} {c : ClientId} {id : TransactionId}
    {aopt : Option ℚ} {r : TransactionRecord}
    (hnl : d.locked = false)
    (hf : alookup d.transactions_history id = some r) :
    applyToClient d ⟨.Resolve, c, id, aopt⟩ =
      if ¬ r.status = .UnderDispute then (d, .error .TransactionNotUnderDispute)
      else (⟨aupdate d.transactions_history id ⟨r.amount, .Processed⟩⟩, .ok ()) := by
  by_cases h1 : r.status = .UnderDispute <;> simp [applyToClient, hnl, hf, h1]

theorem applyToClient_chargeback_found {d : ClientData} {c : ClientId} {id : TransactionId}
    {aopt : Option ℚ} {r : TransactionRecord}
    (hnl : d.locked = false)
    (hf : alookup d.transactions_history id = some r) :
    applyToClient d ⟨.Chargeback, c, id, aopt⟩ =
      if ¬ r.status = .UnderDispute then (d, .error .TransactionNotUnderDispute)
      else (⟨aupdate d.transactions_history id ⟨r.amount, .ChargeBack⟩⟩, .ok ()) := by
  by_cases h1 : r.status = .UnderDispute <;> simp [applyToClient, hnl, hf, h1]

theorem getClient_process_of_locked {p : TransactionsProcessor} {c : ClientId}
    (t : Transaction) (h : (p.getClient c).locked = true) :
    (p.process t).1.getClient c = p.getClient c := by
  by_cases hc : c = t.client
  · subst hc
    rw [getClient_process_self, applyToClient_locked t h]
  · exact getClient_process_ne p t hc

theorem getClient_processAll_of_locked {p : TransactionsProcessor} {c : ClientId}
    (ts : List Transaction) (h : (p.getClient c).locked = true) :
    (p.processAll ts).getClient c = p.getClient c := by
  induction ts generalizing p with
  | nil => rfl
  | cons t ts ih =>
    show ((p.process t).1.processAll ts).getClient c = p.getClient c
    rw [ih ((getClient_process_of_locked t h).symm ▸ h), getClient_process_of_locked t h]

theorem keysNodup_empty : KeysNodup empty := by
  simp [KeysNodup, empty]

theorem keysNodup_process {p : TransactionsProcessor} (t : Transaction)
    (h : KeysNodup p) : KeysNodup (p.process t).1 := by
  rw [KeysNodup, process_fst]
  by_cases hm : t.client ∈ p.clients_data.map Prod.fst
  · rw [map_fst_aupdate_mem _ hm]
    exact h
  · rw [map_fst_aupdate_not_mem _ hm]
    simp only [List.nodup_append, List.nodup_singleton, true_and]
    exact ⟨h, by simpa using hm⟩

theorem reachable_keysNodup {p : TransactionsProcessor} (h : Reachable p) : KeysNodup p := by
  induction h with
  | init => exact keysNodup_empty
  | step p t _ ih => exact keysNodup_process t ih

end TransactionsProcessor

/-! ## Arithmetic lemmas about the amount codec -/

theorem roundHalfAwayFromZero_neg (v : ℚ) :
    roundHalfAwayFromZero (-v) = -roundHalfAwayFromZero v := by
  rcases lt_trichotomy v 0 with h | h | h
  · rw [roundHalfAwayFromZero, roundHalfAwayFromZero, if_pos (by linarith), if_neg (by linarith)]
    ring_nf
  · subst h
    norm_num [roundHalfAwayFromZero]
  · rw [roundHalfAwayFromZero, roundHalfAwayFromZero, if_neg (by linarith), if_pos (by linarith)]
    ring_nf

theorem roundHalfAwayFromZero_intCast (n : ℤ) :
    roundHalfAwayFromZero (n : ℚ) = n := by
  have hfl : ⌊(n : ℚ) + 1 / 2⌋ = n := by
    rw [Int.floor_int_add]
    norm_num
  rcases le_or_lt 0 (n : ℚ) with h | h
  · rw [roundHalfAwayFromZero, if_pos h, hfl]
  · rw [roundHalfAwayFromZero, if_neg (not_le.mpr h)]
    have hfl' : ⌊((-n : ℤ) : ℚ) + 1 / 2⌋ = -n := by
      rw [Int.floor_int_add]
      norm_num
    push_cast at hfl'
    rw [hfl']
    ring

theorem f64_to_amount_type_neg (v : ℚ) :
    f64_to_amount_type (-v) = -f64_to_amount_type v := by
  rw [f64_to_amount_type, f64_to_amount_type, neg_mul, roundHalfAwayFromZero_neg]

theorem f64_to_amount_type_of_intCast {a : ℚ} {n : ℤ} (h : a * 10000 = (n : ℚ)) :
    f64_to_amount_type a = n := by
  rw [f64_to_amount_type, h, roundHalfAwayFromZero_intCast]

theorem roundHalfAwayFromZero_nonneg {v : ℚ} (h : 0 ≤ v) :
    0 ≤ roundHalfAwayFromZero v := by
  rw [roundHalfAwayFromZero, if_pos h]
  positivity

theorem roundHalfAwayFromZero_pos {v : ℚ} (h : 1 / 2 ≤ v) :
    0 < roundHalfAwayFromZero v := by
  rw [roundHalfAwayFromZero, if_pos (by linarith)]
  have h2 : (1 : ℤ) ≤ ⌊v + 1 / 2⌋ := Int.le_floor.mpr (by push_cast; linarith)
  omega

theorem amount_type_to_f64_add (x y : AmountType) :
    amount_type_to_f64 (x + y) = amount_type_to_f64 x + amount_type_to_f64 y := by
  rw [amount_type_to_f64, amount_type_to_f64, amount_type_to_f64]
  push_cast
  ring

theorem amount_type_to_f64_sub (x y : AmountType) :
    amount_type_to_f64 (x - y) = amount_type_to_f64 x - amount_type_to_f64 y := by
  rw [amount_type_to_f64, amount_type_to_f64, amount_type_to_f64]
  push_cast
  ring

theorem le_amount_type_to_f64_iff (a : ℚ) (s : AmountType) :
    a ≤ amount_type_to_f64 s ↔ a * 10000 ≤ (s : ℚ) := by
  rw [amount_type_to_f64, le_div_iff₀ (by norm_num)]

namespace TransactionsProcessor

theorem alookup_of_locked {p : TransactionsProcessor} {c : ClientId}
    (h : (p.getClient c).locked = true) :
    alookup p.clients_data c = some (p.getClient c) := by
  rcases hl : alookup p.clients_data c with _ | d
  · rw [getClient, hl] at h
    simp [ClientData.locked] at h
  · rw [getClient, hl]
    rfl

theorem process_state_eq_of_locked {p : TransactionsProcessor} {c : ClientId}
    (t : Transaction) (htc : t.client = c) (h : (p.getClient c).locked = true) :
    (p.process t).1 = p := by
  subst htc
  rw [process_fst, applyToClient_locked t h, aupdate_eq_self (alookup_of_locked h)]

end TransactionsProcessor

/-! ## The claims -/

open TransactionsProcessor

/-- C9: `process` leaves the data and snapshot of every client other than the
addressed one unchanged, whether it succeeds or fails, and its result depends
only on the addressed client's own ledger, so transaction-id collisions across
clients cause no interference. -/
theorem C9_client_isolation (p q : TransactionsProcessor) (t : Transaction) (c : ClientId)
    (hne : c ≠ t.client) (hagree : p.getClient t.client = q.getClient t.client) :
    (p.process t).1.getClient c = p.getClient c ∧
    (p.process t).1.snapshotOf c = p.snapshotOf c ∧
    (p.process t).2 = (q.process t).2 := by
  refine ⟨getClient_process_ne p t hne,
    snapshotOf_eq_of_getClient_eq (getClient_process_ne p t hne), ?_⟩
  rw [process_snd, process_snd, hagree]

/-- Closed witness for C9 at a concrete input. -/
theorem C9_client_isolation_witness :
    ((2 : ClientId) ≠ (⟨.Deposit, 1, 1, some 1⟩ : Transaction).client ∧
      TransactionsProcessor.empty.getClient (⟨.Deposit, 1, 1, some 1⟩ : Transaction).client =
        (⟨[(2, ⟨[]⟩)]⟩ : TransactionsProcessor).getClient
          (⟨.Deposit, 1, 1, some 1⟩ : Transaction).client) ∧
    ((TransactionsProcessor.empty.process ⟨.Deposit, 1, 1, some 1⟩).1.getClient 2 =
        TransactionsProcessor.empty.getClient 2 ∧
      (TransactionsProcessor.empty.process ⟨.Deposit, 1, 1, some 1⟩).1.snapshotOf 2 =
        TransactionsProcessor.empty.snapshotOf 2 ∧
      (TransactionsProcessor.empty.process ⟨.Deposit, 1, 1, some 1⟩).2 =
        ((⟨[(2, ⟨[]⟩)]⟩ : TransactionsProcessor).process ⟨.Deposit, 1, 1, some 1⟩).2) :=
  ⟨⟨by decide, by decide⟩,
    C9_client_isolation TransactionsProcessor.empty ⟨[(2, ⟨[]⟩)]⟩
      ⟨.Deposit, 1, 1, some 1⟩ 2 (by decide) (by decide)⟩

/-- C4: once a client's derived locked flag is true, every later `process` call
addressed to that client fails with `AccountLocked` and mutates nothing, and
the client's snapshot stays what it was, forever. -/
theorem C4_locked_account_inert (p : TransactionsProcessor) (c : ClientId)
    (hl : (p.getClient c).locked = true) :
    ∀ ts : List Transaction,
      (p.processAll ts).snapshotOf c = p.snapshotOf c ∧
      ∀ t : Transaction, t.client = c →
        ((p.processAll ts).process t).2 = .error .AccountLocked ∧
        ((p.processAll ts).process t).1 = p.processAll ts := by
  intro ts
  have hgc : (p.processAll ts).getClient c = p.getClient c :=
    getClient_processAll_of_locked ts hl
  have hl' : ((p.processAll ts).getClient c).locked = true := by rw [hgc]; exact hl
  refine ⟨snapshotOf_eq_of_getClient_eq hgc, ?_⟩
  intro t htc
  constructor
  · rw [process_snd, htc, applyToClient_locked t hl']
  · exact process_state_eq_of_locked t htc hl'

/-- Closed witness for C4 at a concrete input. -/
theorem C4_locked_account_inert_witness :
    ((⟨[(1, ⟨[(3, ⟨70000, .ChargeBack⟩)]⟩)]⟩ : TransactionsProcessor).getClient 1).locked
      = true ∧
    ((⟨[(1, ⟨[(3, ⟨70000, .ChargeBack⟩)]⟩)]⟩ : TransactionsProcessor).processAll
        [⟨.Deposit, 2, 1, some 1⟩]).snapshotOf 1 =
      (⟨[(1, ⟨[(3, ⟨70000, .ChargeBack⟩)]⟩)]⟩ : TransactionsProcessor).snapshotOf 1 ∧
    (((⟨[(1, ⟨[(3, ⟨70000, .ChargeBack⟩)]⟩)]⟩ : TransactionsProcessor).processAll
          [⟨.Deposit, 2, 1, some 1⟩]).process ⟨.Withdrawal, 1, 9, some 1⟩).2 =
      .error .AccountLocked :=
  have h := C4_locked_account_inert ⟨[(1, ⟨[(3, ⟨70000, .ChargeBack⟩)]⟩)]⟩ 1 (by decide)
    [⟨.Deposit, 2, 1, some 1⟩]
  ⟨by decide, h.1, (h.2 ⟨.Withdrawal, 1, 9, some 1⟩ (by decide)).1⟩

/-- C5 (amended): when `process` returns an error, every client's ledger and
snapshot are exactly as before the call — no record is inserted and no record's
status or amount changes; the only state change is that the addressed client's
entry is materialised with its current (possibly empty) value, as
`entry(...).or_default()` does even on the error paths. -/
theorem C5_error_no_ledger_change (p : TransactionsProcessor) (t : Transaction)
    (e : TransactionProcessError) (h : (p.process t).2 = .error e) :
    (p.process t).1 = ⟨aupdate p.clients_data t.client (p.getClient t.client)⟩ ∧
    ∀ c : ClientId, (p.process t).1.getClient c = p.getClient c ∧
      (p.process t).1.snapshotOf c = p.snapshotOf c := by
  have hfst : (applyToClient (p.getClient t.client) t).1 = p.getClient t.client :=
    applyToClient_fst_of_error (by rw [← process_snd]; exact h)
  constructor
  · rw [process_fst, hfst]
  · intro c
    by_cases hc : c = t.client
    · subst hc
      have hg : (p.process t).1.getClient t.client = p.getClient t.client := by
        rw [getClient_process_self, hfst]
      exact ⟨hg, snapshotOf_eq_of_getClient_eq hg⟩
    · exact ⟨getClient_process_ne p t hc,
        snapshotOf_eq_of_getClient_eq (getClient_process_ne p t hc)⟩

/-- Closed witness for C5 at a concrete input. -/
theorem C5_error_no_ledger_change_witness :
    (TransactionsProcessor.empty.process ⟨.Dispute, 1, 2, none⟩).2 =
      .error .TransactionNotFound ∧
    (TransactionsProcessor.empty.process ⟨.Dispute, 1, 2, none⟩).1 =
      ⟨aupdate TransactionsProcessor.empty.clients_data 1
        (TransactionsProcessor.empty.getClient 1)⟩ ∧
    (TransactionsProcessor.empty.process ⟨.Dispute, 1, 2, none⟩).1.getClient 1 =
      TransactionsProcessor.empty.getClient 1 :=
  have h := C5_error_no_ledger_change TransactionsProcessor.empty ⟨.Dispute, 1, 2, none⟩
    .TransactionNotFound (by decide)
  ⟨by decide, h.1, (h.2 1).1⟩

/-- Counterexample to C5 as stated: a failing call still mutates the state —
the addressed client id gains an (empty) entry, which changes the output of
`summary`, so the state is not "left exactly as it was". -/
theorem C5_error_state_cex :
    (TransactionsProcessor.empty.process ⟨.Dispute, 1, 2, none⟩).2 =
      .error .TransactionNotFound ∧
    (TransactionsProcessor.empty.process ⟨.Dispute, 1, 2, none⟩).1 ≠
      TransactionsProcessor.empty ∧
    (TransactionsProcessor.empty.process ⟨.Dispute, 1, 2, none⟩).1.summary ≠
      TransactionsProcessor.empty.summary := by
  refine ⟨by decide, by decide, ?_⟩
  norm_num [summary, process, applyToClient, getClient, empty, alookup, aupdate,
    ClientData.available, ClientData.held, ClientData.locked, ClientData.sumWithStatus,
    amount_type_to_f64]

/-- C10: a `Dispute` that passes the locked pre-check can never see a
`ChargeBack` record (a charged-back record would have made the account locked),
so when its status guard fails the record is necessarily `UnderDispute`. -/
theorem C10_chargeback_case_unreachable (p : TransactionsProcessor) (t : Transaction)
    (r : TransactionRecord)
    (hk : t.transaction_type = .Dispute)
    (hnl : (p.getClient t.client).locked = false)
    (hf : alookup (p.getClient t.client).transactions_history t.transaction_id = some r)
    (hst : r.status ≠ .Processed) :
    r.status = .UnderDispute ∧
    (p.process t).2 = .error .TransactionAlreadyUnderDispute := by
  have hnotcb : r.status ≠ .ChargeBack :=
    (ClientData.locked_eq_false_iff _).mp hnl (t.transaction_id, r) (mem_of_alookup_eq_some hf)
  have hud : r.status = .UnderDispute := by
    cases hc : r.status
    · exact absurd hc hst
    · rfl
    · exact absurd hc hnotcb
  refine ⟨hud, ?_⟩
  obtain ⟨ty, tc, tid, ta⟩ := t
  simp only at hk
  subst hk
  rw [process_snd, applyToClient_dispute_found hnl hf, if_pos hst]

/-- Closed witness for C10 at a concrete input. -/
theorem C10_chargeback_case_unreachable_witness :
    ((⟨.Dispute, 1, 4, none⟩ : Transaction).transaction_type = .Dispute ∧
      ((⟨[(1, ⟨[(4, ⟨20000, .UnderDispute⟩)]⟩)]⟩ : TransactionsProcessor).getClient
          (⟨.Dispute, 1, 4, none⟩ : Transaction).client).locked = false ∧
      alookup
        ((⟨[(1, ⟨[(4, ⟨20000, .UnderDispute⟩)]⟩)]⟩ : TransactionsProcessor).getClient
          (⟨.Dispute, 1, 4, none⟩ : Transaction).client).transactions_history
        (⟨.Dispute, 1, 4, none⟩ : Transaction).transaction_id =
          some ⟨20000, .UnderDispute⟩ ∧
      (⟨20000, (.UnderDispute : TransactionStatus)⟩ : TransactionRecord).status ≠ .Processed) ∧
    ((⟨20000, (.UnderDispute : TransactionStatus)⟩ : TransactionRecord).status = .UnderDispute ∧
      ((⟨[(1, ⟨[(4, ⟨20000, .UnderDispute⟩)]⟩)]⟩ : TransactionsProcessor).process
          ⟨.Dispute, 1, 4, none⟩).2 = .error .TransactionAlreadyUnderDispute) :=
  ⟨⟨by decide, by decide, by decide, by decide⟩,
    C10_chargeback_case_unreachable ⟨[(1, ⟨[(4, ⟨20000, .UnderDispute⟩)]⟩)]⟩
      ⟨.Dispute, 1, 4, none⟩ ⟨20000, .UnderDispute⟩ (by decide) (by decide) (by decide)
      (by decide)⟩

/-- C8 (amended): for a client whose account is not locked, a `Dispute` whose
referenced transaction exists with status other than `Processed` fails with the
single unified `TransactionAlreadyUnderDispute` error (the status is then
necessarily `UnderDispute`; a `ChargedBack` record would have made the account
locked and the call fail with `AccountLocked` at the pre-check); if the record
is `Processed` but its stored amount is not positive the call fails with
`CannotDisputeWithdrawal`. -/
theorem C8_dispute_error_precedence (p : TransactionsProcessor) (c : ClientId)
    (id : TransactionId) (aopt : Option ℚ) (r : TransactionRecord)
    (hnl : (p.getClient c).locked = false)
    (hf : alookup (p.getClient c).transactions_history id = some r) :
    (r.status ≠ .Processed →
      (p.process ⟨.Dispute, c, id, aopt⟩).2 = .error .TransactionAlreadyUnderDispute) ∧
    (r.status = .Processed → ¬ 0 < r.amount →
      (p.process ⟨.Dispute, c, id, aopt⟩).2 = .error .CannotDisputeWithdrawal) := by
  constructor
  · intro hst
    rw [process_snd, applyToClient_dispute_found hnl hf, if_pos hst]
  · intro hst hpos
    rw [process_snd, applyToClient_dispute_found hnl hf, if_neg (by simp [hst]),
      if_pos hpos]

/-- Closed witness for C8 at a concrete input. -/
theorem C8_dispute_error_precedence_witness :
    (((⟨[(1, ⟨[(4, ⟨-20000, .Processed⟩)]⟩)]⟩ : TransactionsProcessor).getClient 1).locked
        = false ∧
      alookup
        ((⟨[(1, ⟨[(4, ⟨-20000, .Processed⟩)]⟩)]⟩ : TransactionsProcessor).getClient
          1).transactions_history 4 = some ⟨-20000, .Processed⟩) ∧
    ((⟨-20000, (.Processed : TransactionStatus)⟩ : TransactionRecord).status = .Processed →
      ¬ 0 < (⟨-20000, (.Processed : TransactionStatus)⟩ : TransactionRecord).amount →
      ((⟨[(1, ⟨[(4, ⟨-20000, .Processed⟩)]⟩)]⟩ : TransactionsProcessor).process
          ⟨.Dispute, 1, 4, none⟩).2 = .error .CannotDisputeWithdrawal) :=
  ⟨⟨by decide, by decide⟩,
    (C8_dispute_error_precedence ⟨[(1, ⟨[(4, ⟨-20000, .Processed⟩)]⟩)]⟩ 1 4 none
      ⟨-20000, .Processed⟩ (by decide) (by decide)).2⟩

/-- Counterexample to C8 as stated: when the referenced record's status is
`ChargedBack`, the account is locked, so the call fails with `AccountLocked`,
not with `TransactionAlreadyUnderDispute`. -/
theorem C8_dispute_error_cex :
    alookup
      ((⟨[(1, ⟨[(1, ⟨100000, .ChargeBack⟩)]⟩)]⟩ : TransactionsProcessor).getClient
        1).transactions_history 1 = some ⟨100000, .ChargeBack⟩ ∧
    (⟨100000, (.ChargeBack : TransactionStatus)⟩ : TransactionRecord).status ≠ .Processed ∧
    ((⟨[(1, ⟨[(1, ⟨100000, .ChargeBack⟩)]⟩)]⟩ : TransactionsProcessor).process
        ⟨.Dispute, 1, 1, none⟩).2 = .error .AccountLocked ∧
    ((⟨[(1, ⟨[(1, ⟨100000, .ChargeBack⟩)]⟩)]⟩ : TransactionsProcessor).process
        ⟨.Dispute, 1, 1, none⟩).2 ≠ .error .TransactionAlreadyUnderDispute := by
  decide

/-- C6 (amended): the balance summations are performed on the internal
fixed-point integers, but the withdrawal coverage comparison is performed on
decimals — the raw input amount against the decimal rendering of the integer
sum — which is equivalent to comparing the exact (unrounded) scaled amount
`a * 10000` against the integer sum, not to comparing the rounded integer form
of `a`. -/
theorem C6_arithmetic_domains :
    (∀ d : ClientData, d.available = amount_type_to_f64 (d.sumWithStatus .Processed)) ∧
    (∀ d : ClientData, d.held = amount_type_to_f64 (d.sumWithStatus .UnderDispute)) ∧
    (∀ (a : ℚ) (d : ClientData),
      (a ≤ d.available ↔ a * 10000 ≤ ((d.sumWithStatus .Processed : ℤ) : ℚ))) ∧
    (∀ (d : ClientData) (c : ClientId) (id : TransactionId) (a : ℚ),
      ((applyToClient d ⟨.Withdrawal, c, id, some a⟩).2 = .error .NotEnoughFoundsAvailable ↔
        d.locked = false ∧ 0 < a ∧
          ¬ a * 10000 ≤ ((d.sumWithStatus .Processed : ℤ) : ℚ))) := by
  refine ⟨fun d => rfl, fun d => rfl,
    fun a d => le_amount_type_to_f64_iff a (d.sumWithStatus .Processed), ?_⟩
  intro d c id a
  by_cases hl : d.locked = true
  · simp [applyToClient_locked _ hl, hl]
  · have hl' : d.locked = false := Bool.eq_false_iff.mpr hl
    by_cases h1 : 0 < a
    · by_cases h2 : a ≤ d.available
      · have h2u : a ≤ amount_type_to_f64 (d.sumWithStatus .Processed) := h2
        have h2' : ¬ amount_type_to_f64 (d.sumWithStatus .Processed) < a := not_lt.mpr h2u
        have h2d : ¬ d.available < a := not_lt.mpr h2
        by_cases h3 : (alookup d.transactions_history id).isSome
        · simp [applyToClient, hl', h1, h2', h2d, h2u, h3, ← le_amount_type_to_f64_iff]
        · simp [applyToClient, hl', h1, h2', h2d, h2u, h3, ← le_amount_type_to_f64_iff]
      · have h2u : ¬ a ≤ amount_type_to_f64 (d.sumWithStatus .Processed) := h2
        have hlt : amount_type_to_f64 (d.sumWithStatus .Processed) < a := not_le.mp h2u
        have hltd : d.available < a := not_le.mp h2
        simp [applyToClient, hl', h1, hlt, hltd, h2u, ← le_amount_type_to_f64_iff]
    · simp [applyToClient, hl', h1]

/-- Counterexample to C6 as stated: for a sub-precision amount the decimal
comparison the code performs rejects the withdrawal, while the comparison on
the rounded internal integer would have accepted it, so the coverage decision
is not performed on the fixed-point integer. -/
theorem C6_integer_comparison_cex :
    (applyToClient ⟨[]⟩ ⟨.Withdrawal, 1, 1, some (3 / 100000)⟩).2 =
      .error .NotEnoughFoundsAvailable ∧
    ¬ (3 / 100000 : ℚ) ≤ (⟨[]⟩ : ClientData).available ∧
    f64_to_amount_type (3 / 100000) ≤ (⟨[]⟩ : ClientData).sumWithStatus .Processed := by
  have hav : (⟨[]⟩ : ClientData).available = 0 := by
    norm_num [ClientData.available, ClientData.sumWithStatus, amount_type_to_f64]
  have hf : f64_to_amount_type (3 / 100000) = 0 := by
    rw [f64_to_amount_type, roundHalfAwayFromZero, if_pos (by norm_num)]
    norm_num
  refine ⟨?_, by rw [hav]; norm_num, by rw [hf]; norm_num [ClientData.sumWithStatus]⟩
  have hlt : (⟨[]⟩ : ClientData).available < 3 / 100000 := by rw [hav]; norm_num
  simp [applyToClient, ClientData.locked, hlt, alookup, not_le.mpr hlt]

theorem applyToClient_deposit_ok_inv {d : ClientData} {c : ClientId}
    {id : TransactionId} {a : ℚ}
    (h : (applyToClient d ⟨.Deposit, c, id, some a⟩).2 = .ok ()) :
    d.locked = false ∧ 0 < a ∧ alookup d.transactions_history id = none := by
  by_cases hl : d.locked = true
  · rw [applyToClient_locked _ hl] at h
    simp at h
  · have hl' : d.locked = false := Bool.eq_false_iff.mpr hl
    by_cases h1 : 0 < a
    · by_cases h3 : (alookup d.transactions_history id).isSome
      · simp [applyToClient, hl', h1, h3] at h
      · exact ⟨hl', h1, Option.not_isSome_iff_eq_none.mp h3⟩
    · simp [applyToClient, hl', h1] at h

theorem applyToClient_withdrawal_ok_inv {d : ClientData} {c : ClientId}
    {id : TransactionId} {a : ℚ}
    (h : (applyToClient d ⟨.Withdrawal, c, id, some a⟩).2 = .ok ()) :
    d.locked = false ∧ 0 < a ∧ a ≤ d.available ∧
      alookup d.transactions_history id = none := by
  by_cases hl : d.locked = true
  · rw [applyToClient_locked _ hl] at h
    simp at h
  · have hl' : d.locked = false := Bool.eq_false_iff.mpr hl
    by_cases h1 : 0 < a
    · by_cases h2 : a ≤ d.available
      · by_cases h3 : (alookup d.transactions_history id).isSome
        · simp [applyToClient, hl', h1, h2, h3] at h
        · exact ⟨hl', h1, h2, Option.not_isSome_iff_eq_none.mp h3⟩
      · simp [applyToClient, hl', h1, h2] at h
    · simp [applyToClient, hl', h1] at h

/-- C7 (amended): every record a successful `Deposit` creates stores the
rounded scaled amount, which is non-negative — and strictly positive whenever
the amount is at least half of the 0.0001 precision unit; every record a
successful `Withdrawal` creates stores the negated rounded scaled amount,
which is non-positive — and strictly negative under the same proviso;
`available` is the plain sum over `Processed` records, converted once, with no
branching on transaction kind. The two halves are independent: each is
conditioned only on its own call succeeding. -/
theorem C7_sign_convention (p : TransactionsProcessor) (c : ClientId)
    (id₁ id₂ : TransactionId) (a₁ a₂ : ℚ) :
    ((p.process ⟨.Deposit, c, id₁, some a₁⟩).2 = .ok () →
      alookup ((p.process ⟨.Deposit, c, id₁, some a₁⟩).1.getClient c).transactions_history
          id₁ = some ⟨f64_to_amount_type a₁, .Processed⟩ ∧
      0 ≤ f64_to_amount_type a₁ ∧
      (1 / 20000 ≤ a₁ → 0 < f64_to_amount_type a₁)) ∧
    ((p.process ⟨.Withdrawal, c, id₂, some a₂⟩).2 = .ok () →
      alookup ((p.process ⟨.Withdrawal, c, id₂, some a₂⟩).1.getClient c).transactions_history
          id₂ = some ⟨f64_to_amount_type (-a₂), .Processed⟩ ∧
      f64_to_amount_type (-a₂) ≤ 0 ∧
      (1 / 20000 ≤ a₂ → f64_to_amount_type (-a₂) < 0)) ∧
    (∀ d : ClientData, d.available = amount_type_to_f64 (d.sumWithStatus .Processed)) := by
  refine ⟨fun h₁ => ?_, fun h₂ => ?_, fun d => rfl⟩
  · obtain ⟨hnl₁, hpos₁, hfresh₁⟩ := applyToClient_deposit_ok_inv (d := p.getClient c) h₁
    refine ⟨?_, ?_, ?_⟩
    · have hd : (p.process ⟨.Deposit, c, id₁, some a₁⟩).1.getClient c =
          ⟨aupdate (p.getClient c).transactions_history id₁
            ⟨f64_to_amount_type a₁, .Processed⟩⟩ :=
        (getClient_process_self p _).trans
          (congrArg Prod.fst (applyToClient_deposit hnl₁ hpos₁ hfresh₁))
      rw [hd]
      exact alookup_aupdate_self _ _ _
    · exact roundHalfAwayFromZero_nonneg (mul_nonneg (le_of_lt hpos₁) (by norm_num))
    · intro hhalf
      exact roundHalfAwayFromZero_pos (by linarith)
  · obtain ⟨hnl₂, hpos₂, hav₂, hfresh₂⟩ :=
      applyToClient_withdrawal_ok_inv (d := p.getClient c) h₂
    refine ⟨?_, ?_, ?_⟩
    · have hw : (p.process ⟨.Withdrawal, c, id₂, some a₂⟩).1.getClient c =
          ⟨aupdate (p.getClient c).transactions_history id₂
            ⟨f64_to_amount_type (-a₂), .Processed⟩⟩ := by
        refine (getClient_process_self p _).trans ?_
        rw [applyToClient_withdrawal hnl₂ hfresh₂, if_pos ⟨hpos₂, hav₂⟩]
      rw [hw]
      exact alookup_aupdate_self _ _ _
    · rw [f64_to_amount_type_neg]
      simp only [Left.neg_nonpos_iff]
      exact roundHalfAwayFromZero_nonneg (mul_nonneg (le_of_lt hpos₂) (by norm_num))
    · intro hhalf
      rw [f64_to_amount_type_neg]
      simp only [Left.neg_neg_iff]
      exact roundHalfAwayFromZero_pos (by linarith)

/-- Closed witness for C7: the deposit half at a fresh zero-balance client
(where no withdrawal could succeed) and the withdrawal half at a funded
client. -/
theorem C7_sign_convention_witness :
    (TransactionsProcessor.empty.process ⟨.Deposit, 1, 2, some 5⟩).2 = .ok () ∧
    (alookup ((TransactionsProcessor.empty.process
          ⟨.Deposit, 1, 2, some 5⟩).1.getClient 1).transactions_history 2 =
        some ⟨f64_to_amount_type 5, .Processed⟩ ∧
      0 ≤ f64_to_amount_type 5) ∧
    ((⟨[(1, ⟨[(1, ⟨10000, .Processed⟩)]⟩)]⟩ : TransactionsProcessor).process
        ⟨.Withdrawal, 1, 3, some 1⟩).2 = .ok () ∧
    (alookup (((⟨[(1, ⟨[(1, ⟨10000, .Processed⟩)]⟩)]⟩ : TransactionsProcessor).process
          ⟨.Withdrawal, 1, 3, some 1⟩).1.getClient 1).transactions_history 3 =
        some ⟨f64_to_amount_type (-1), .Processed⟩ ∧
      f64_to_amount_type (-1) ≤ 0) := by
  have hd : (TransactionsProcessor.empty.process ⟨.Deposit, 1, 2, some 5⟩).2 = .ok () := by
    rw [process_snd, applyToClient_deposit (by decide) (by norm_num) (by decide)]
  have havail : (1 : ℚ) ≤
      ((⟨[(1, ⟨[(1, ⟨10000, .Processed⟩)]⟩)]⟩ : TransactionsProcessor).getClient 1).available := by
    norm_num [getClient, alookup, ClientData.available, ClientData.sumWithStatus,
      amount_type_to_f64]
  have hw : ((⟨[(1, ⟨[(1, ⟨10000, .Processed⟩)]⟩)]⟩ : TransactionsProcessor).process
      ⟨.Withdrawal, 1, 3, some 1⟩).2 = .ok () := by
    rw [process_snd, applyToClient_withdrawal (by decide) (by decide),
      if_pos ⟨by norm_num, havail⟩]
  have h₁ := (C7_sign_convention TransactionsProcessor.empty 1 2 3 5 1).1 hd
  have h₂ := (C7_sign_convention ⟨[(1, ⟨[(1, ⟨10000, .Processed⟩)]⟩)]⟩ 1 2 3 5 1).2.1 hw
  exact ⟨hd, ⟨h₁.1, h₁.2.1⟩, hw, ⟨h₂.1, h₂.2.1⟩⟩

/-- Counterexample to C7 as stated: a deposit of `0.00003` passes the
positivity guard but its scaled amount rounds to zero, so the created record's
stored amount is `0`, which is not strictly positive. -/
theorem C7_sign_cex :
    (TransactionsProcessor.empty.process ⟨.Deposit, 1, 1, some (3 / 100000)⟩).2 = .ok () ∧
    alookup ((TransactionsProcessor.empty.process
        ⟨.Deposit, 1, 1, some (3 / 100000)⟩).1.getClient 1).transactions_history 1 =
      some ⟨0, .Processed⟩ ∧
    ¬ (0 : AmountType) < 0 := by
  have hf : f64_to_amount_type (3 / 100000) = 0 := by
    rw [f64_to_amount_type, roundHalfAwayFromZero, if_pos (by norm_num)]
    norm_num
  refine ⟨?_, ?_, by norm_num⟩
  · norm_num [process, applyToClient, getClient, empty, alookup, ClientData.locked]
  · have hd : (TransactionsProcessor.empty.process
        ⟨.Deposit, 1, 1, some (3 / 100000)⟩).1.getClient 1 =
        ⟨aupdate (TransactionsProcessor.empty.getClient 1).transactions_history 1
          ⟨f64_to_amount_type (3 / 100000), .Processed⟩⟩ :=
      (getClient_process_self TransactionsProcessor.empty _).trans
        (congrArg Prod.fst (applyToClient_deposit (by decide) (by norm_num) (by decide)))
    rw [hd, hf]
    exact alookup_aupdate_self _ _ _

theorem amount_type_to_f64_neg (x : AmountType) :
    amount_type_to_f64 (-x) = -amount_type_to_f64 x := by
  rw [amount_type_to_f64, amount_type_to_f64]
  push_cast
  ring

/-- C2 (amended): for an unlocked client and a fresh transaction id, a
withdrawal of `a` succeeds exactly when `a > 0` and `a` is at most the
available funds derived from the `Processed` records at call time; on success
the available funds decrease by exactly the 4-decimal rounding
`toDecimal(toInternal(a))` of `a`, which equals `a` itself whenever `a` is
representable with at most 4 decimal digits. -/
theorem C2_withdrawal_spec (p : TransactionsProcessor) (c : ClientId)
    (id : TransactionId) (a : ℚ)
    (hnl : (p.getClient c).locked = false)
    (hfresh : alookup (p.getClient c).transactions_history id = none) :
    ((p.process ⟨.Withdrawal, c, id, some a⟩).2 = .ok () ↔
      0 < a ∧ a ≤ (p.getClient c).available) ∧
    ((p.process ⟨.Withdrawal, c, id, some a⟩).2 = .ok () →
      ((p.process ⟨.Withdrawal, c, id, some a⟩).1.getClient c).available
        = (p.getClient c).available - amount_type_to_f64 (f64_to_amount_type a) ∧
      ∀ n : ℤ, a * 10000 = (n : ℚ) →
        ((p.process ⟨.Withdrawal, c, id, some a⟩).1.getClient c).available
          = (p.getClient c).available - a) := by
  have hmain : (p.process ⟨.Withdrawal, c, id, some a⟩).2 = .ok () →
      ((p.process ⟨.Withdrawal, c, id, some a⟩).1.getClient c).available
        = (p.getClient c).available - amount_type_to_f64 (f64_to_amount_type a) := by
    intro hok
    obtain ⟨_, h1, h2, _⟩ := applyToClient_withdrawal_ok_inv (d := p.getClient c) hok
    have hw : (p.process ⟨.Withdrawal, c, id, some a⟩).1.getClient c =
        ⟨aupdate (p.getClient c).transactions_history id
          ⟨f64_to_amount_type (-a), .Processed⟩⟩ := by
      refine (getClient_process_self p _).trans ?_
      rw [applyToClient_withdrawal hnl hfresh, if_pos ⟨h1, h2⟩]
    rw [hw, aupdate_of_alookup_none _ hfresh]
    show ClientData.available _ = _
    rw [ClientData.available, ClientData.sumWithStatus_mk_append,
      ClientData.sumWithStatus_mk_cons, ClientData.sumWithStatus_mk_nil, if_pos rfl]
    rw [add_zero, f64_to_amount_type_neg, amount_type_to_f64_add, amount_type_to_f64_neg]
    have hav : amount_type_to_f64
        ((⟨(p.getClient c).transactions_history⟩ : ClientData).sumWithStatus .Processed)
        = (p.getClient c).available := rfl
    rw [hav]
    ring
  refine ⟨⟨?_, ?_⟩, fun hok => ⟨hmain hok, ?_⟩⟩
  · intro hok
    obtain ⟨_, h1, h2, _⟩ := applyToClient_withdrawal_ok_inv (d := p.getClient c) hok
    exact ⟨h1, h2⟩
  · rintro ⟨h1, h2⟩
    rw [process_snd, applyToClient_withdrawal hnl hfresh, if_pos ⟨h1, h2⟩]
  · intro n hn
    have hfa : amount_type_to_f64 (f64_to_amount_type a) = a := by
      rw [f64_to_amount_type_of_intCast hn, amount_type_to_f64, ← hn]
      field_simp
    rw [hmain ‹_›, hfa]

/-- Closed witness for C2 at a concrete input. -/
theorem C2_withdrawal_spec_witness :
    (((⟨[(1, ⟨[(1, ⟨10000, .Processed⟩)]⟩)]⟩ : TransactionsProcessor).getClient 1).locked
        = false ∧
      alookup ((⟨[(1, ⟨[(1, ⟨10000, .Processed⟩)]⟩)]⟩ :
        TransactionsProcessor).getClient 1).transactions_history 2 = none) ∧
    (((⟨[(1, ⟨[(1, ⟨10000, .Processed⟩)]⟩)]⟩ : TransactionsProcessor).process
        ⟨.Withdrawal, 1, 2, some (1 / 2)⟩).2 = .ok () ↔
      0 < (1 / 2 : ℚ) ∧ (1 / 2 : ℚ) ≤
        ((⟨[(1, ⟨[(1, ⟨10000, .Processed⟩)]⟩)]⟩ :
          TransactionsProcessor).getClient 1).available) :=
  ⟨⟨by decide, by decide⟩,
    (C2_withdrawal_spec ⟨[(1, ⟨[(1, ⟨10000, .Processed⟩)]⟩)]⟩ 1 2 (1 / 2)
      (by decide) (by decide)).1⟩

/-- Counterexample to C2 as stated: a withdrawal of the sub-precision amount
`0.00003` from a balance of `1` succeeds, but the available funds do not
decrease at all — the scaled amount rounds to zero — so they do not decrease
by exactly the withdrawn amount. -/
theorem C2_withdrawal_exact_cex :
    ((⟨[(1, ⟨[(1, ⟨10000, .Processed⟩)]⟩)]⟩ : TransactionsProcessor).process
        ⟨.Withdrawal, 1, 2, some (3 / 100000)⟩).2 = .ok () ∧
    (((⟨[(1, ⟨[(1, ⟨10000, .Processed⟩)]⟩)]⟩ : TransactionsProcessor).process
        ⟨.Withdrawal, 1, 2, some (3 / 100000)⟩).1.getClient 1).available = 1 ∧
    ((⟨[(1, ⟨[(1, ⟨10000, .Processed⟩)]⟩)]⟩ : TransactionsProcessor).getClient 1).available
        = 1 ∧
    (1 : ℚ) ≠ 1 - 3 / 100000 := by
  have hav : ((⟨[(1, ⟨[(1, ⟨10000, .Processed⟩)]⟩)]⟩ :
      TransactionsProcessor).getClient 1).available = 1 := by
    norm_num [getClient, alookup, ClientData.available, ClientData.sumWithStatus,
      amount_type_to_f64]
  have hf : f64_to_amount_type (-(3 / 100000)) = 0 := by
    rw [f64_to_amount_type_neg, f64_to_amount_type, roundHalfAwayFromZero,
      if_pos (by norm_num)]
    norm_num
  have hok : ((⟨[(1, ⟨[(1, ⟨10000, .Processed⟩)]⟩)]⟩ : TransactionsProcessor).process
      ⟨.Withdrawal, 1, 2, some (3 / 100000)⟩).2 = .ok () := by
    rw [process_snd, applyToClient_withdrawal (by decide) (by decide),
      if_pos ⟨by norm_num, by rw [hav]; norm_num⟩]
  refine ⟨hok, ?_, hav, by norm_num⟩
  have hw : ((⟨[(1, ⟨[(1, ⟨10000, .Processed⟩)]⟩)]⟩ : TransactionsProcessor).process
      ⟨.Withdrawal, 1, 2, some (3 / 100000)⟩).1.getClient 1 =
      ⟨aupdate [(1, ⟨10000, .Processed⟩)] 2 ⟨f64_to_amount_type (-(3 / 100000)), .Processed⟩⟩ := by
    refine (getClient_process_self _ _).trans ?_
    rw [applyToClient_withdrawal (by decide) (by decide),
      if_pos ⟨by norm_num, by rw [hav]; norm_num⟩]
    rfl
  rw [hw, hf]
  norm_num [ClientData.available, ClientData.sumWithStatus, aupdate, amount_type_to_f64]

theorem ClientData.eta (d : ClientData) :
    (⟨d.transactions_history⟩ : ClientData) = d := rfl

theorem ClientData.locked_aupdate_eq_false {l : List (TransactionId × TransactionRecord)}
    {k : TransactionId} {v : TransactionRecord}
    (hnl : (⟨l⟩ : ClientData).locked = false) (hv : v.status ≠ .ChargeBack) :
    (⟨aupdate l k v⟩ : ClientData).locked = false := by
  rw [ClientData.locked_eq_false_iff] at hnl ⊢
  intro kv hkv
  rcases mem_aupdate hkv with h | h
  · rw [h]
    exact hv
  · exact hnl kv h

theorem ClientData.locked_aupdate_chargeback (l : List (TransactionId × TransactionRecord))
    (k : TransactionId) (a : AmountType) :
    (⟨aupdate l k ⟨a, .ChargeBack⟩⟩ : ClientData).locked = true := by
  rw [ClientData.locked_eq_true_iff]
  exact ⟨(k, ⟨a, .ChargeBack⟩), mem_of_alookup_eq_some (alookup_aupdate_self l k _), rfl⟩

theorem ClientData.sumWithStatus_aupdate_get (d : ClientData) {tx : TransactionId}
    {r : TransactionRecord} (v : TransactionRecord)
    (hf : alookup d.transactions_history tx = some r) (s : TransactionStatus) :
    (⟨aupdate d.transactions_history tx v⟩ : ClientData).sumWithStatus s =
      d.sumWithStatus s - (if r.status = s then r.amount else 0)
        + (if v.status = s then v.amount else 0) :=
  ClientData.sumWithStatus_aupdate v hf s

theorem snapshotOf_total (p : TransactionsProcessor) (c : ClientId) :
    (p.snapshotOf c).total = (p.getClient c).held + (p.getClient c).available := rfl

/-- C3: disputing a `Processed` deposit record of stored amount `r.amount`
moves exactly its decimal value from available to held leaving the total
unchanged; a subsequent resolve restores the pre-dispute snapshot exactly; a
subsequent chargeback removes exactly that value from held and from total and
makes the client locked in every later state. -/
theorem C3_dispute_resolve_chargeback (p : TransactionsProcessor) (c : ClientId)
    (tx : TransactionId) (r : TransactionRecord) (aopt aopt' aopt'' : Option ℚ)
    (hf : alookup (p.getClient c).transactions_history tx = some r)
    (hst : r.status = .Processed)
    (hpos : 0 < r.amount)
    (hsucc : (p.process ⟨.Dispute, c, tx, aopt⟩).2 = .ok ()) :
    (((p.process ⟨.Dispute, c, tx, aopt⟩).1.getClient c).available
        = (p.getClient c).available - amount_type_to_f64 r.amount ∧
      ((p.process ⟨.Dispute, c, tx, aopt⟩).1.getClient c).held
        = (p.getClient c).held + amount_type_to_f64 r.amount ∧
      ((p.process ⟨.Dispute, c, tx, aopt⟩).1.snapshotOf c).total
        = (p.snapshotOf c).total) ∧
    (((p.process ⟨.Dispute, c, tx, aopt⟩).1.process ⟨.Resolve, c, tx, aopt'⟩).2 = .ok () ∧
      ((p.process ⟨.Dispute, c, tx, aopt⟩).1.process
        ⟨.Resolve, c, tx, aopt'⟩).1.snapshotOf c = p.snapshotOf c) ∧
    (((p.process ⟨.Dispute, c, tx, aopt⟩).1.process ⟨.Chargeback, c, tx, aopt''⟩).2
        = .ok () ∧
      (((p.process ⟨.Dispute, c, tx, aopt⟩).1.process
          ⟨.Chargeback, c, tx, aopt''⟩).1.getClient c).held
        = ((p.process ⟨.Dispute, c, tx, aopt⟩).1.getClient c).held
            - amount_type_to_f64 r.amount ∧
      (((p.process ⟨.Dispute, c, tx, aopt⟩).1.process
          ⟨.Chargeback, c, tx, aopt''⟩).1.snapshotOf c).total
        = ((p.process ⟨.Dispute, c, tx, aopt⟩).1.snapshotOf c).total
            - amount_type_to_f64 r.amount ∧
      ∀ ts : List Transaction,
        ((((p.process ⟨.Dispute, c, tx, aopt⟩).1.process
            ⟨.Chargeback, c, tx, aopt''⟩).1.processAll ts).getClient c).locked = true) := by
  have hnl : (p.getClient c).locked = false := by
    cases hb : (p.getClient c).locked
    · rfl
    · rw [process_snd, applyToClient_locked _ hb] at hsucc
      simp at hsucc
  have hp1 : (p.process ⟨.Dispute, c, tx, aopt⟩).1.getClient c =
      ⟨aupdate (p.getClient c).transactions_history tx ⟨r.amount, .UnderDispute⟩⟩ := by
    refine (getClient_process_self p _).trans ?_
    rw [applyToClient_dispute_found hnl hf, if_neg (by simp [hst]),
      if_neg (by simp [hpos])]
  have hsumP1 : ((p.process ⟨.Dispute, c, tx, aopt⟩).1.getClient c).sumWithStatus .Processed
      = (p.getClient c).sumWithStatus .Processed - r.amount := by
    rw [hp1, ClientData.sumWithStatus_aupdate_get _ _ hf, if_pos hst, if_neg (by simp)]
    ring
  have hsumU1 : ((p.process ⟨.Dispute, c, tx, aopt⟩).1.getClient c).sumWithStatus
      .UnderDispute = (p.getClient c).sumWithStatus .UnderDispute + r.amount := by
    rw [hp1, ClientData.sumWithStatus_aupdate_get _ _ hf, if_neg (by simp [hst]),
      if_pos rfl]
    ring
  have havail1 : ((p.process ⟨.Dispute, c, tx, aopt⟩).1.getClient c).available
      = (p.getClient c).available - amount_type_to_f64 r.amount := by
    rw [ClientData.available, hsumP1, amount_type_to_f64_sub]
    rfl
  have hheld1 : ((p.process ⟨.Dispute, c, tx, aopt⟩).1.getClient c).held
      = (p.getClient c).held + amount_type_to_f64 r.amount := by
    rw [ClientData.held, hsumU1, amount_type_to_f64_add]
    rfl
  have hnl1 : ((p.process ⟨.Dispute, c, tx, aopt⟩).1.getClient c).locked = false := by
    rw [hp1]
    exact ClientData.locked_aupdate_eq_false hnl (by simp)
  have hf1 : alookup ((p.process ⟨.Dispute, c, tx, aopt⟩).1.getClient
      c).transactions_history tx = some ⟨r.amount, .UnderDispute⟩ := by
    rw [hp1]
    exact alookup_aupdate_self _ _ _
  refine ⟨⟨havail1, hheld1, ?_⟩, ⟨?_, ?_⟩, ⟨?_, ?_, ?_, ?_⟩⟩
  · rw [snapshotOf_total, snapshotOf_total, havail1, hheld1]
    ring
  · rw [process_snd, applyToClient_resolve_found hnl1 hf1, if_neg (by simp)]
  · refine snapshotOf_eq_of_getClient_eq ?_
    refine (getClient_process_self _ _).trans ?_
    rw [applyToClient_resolve_found hnl1 hf1, if_neg (by simp)]
    dsimp only
    rw [hp1]
    dsimp only
    rw [aupdate_aupdate]
    have hr : (⟨r.amount, .Processed⟩ : TransactionRecord) = r := by
      rw [← hst]
    rw [hr, aupdate_eq_self hf, ClientData.eta]
  · rw [process_snd, applyToClient_chargeback_found hnl1 hf1, if_neg (by simp)]
  · have hp2 : ((p.process ⟨.Dispute, c, tx, aopt⟩).1.process
        ⟨.Chargeback, c, tx, aopt''⟩).1.getClient c =
        ⟨aupdate ((p.process ⟨.Dispute, c, tx, aopt⟩).1.getClient c).transactions_history
          tx ⟨r.amount, .ChargeBack⟩⟩ := by
      refine (getClient_process_self _ _).trans ?_
      rw [applyToClient_chargeback_found hnl1 hf1, if_neg (by simp)]
    rw [hp2, ClientData.held,
      ClientData.sumWithStatus_aupdate_get _ _ hf1, if_pos rfl, if_neg (by simp)]
    rw [add_zero, amount_type_to_f64_sub]
    rfl
  · have hp2 : ((p.process ⟨.Dispute, c, tx, aopt⟩).1.process
        ⟨.Chargeback, c, tx, aopt''⟩).1.getClient c =
        ⟨aupdate ((p.process ⟨.Dispute, c, tx, aopt⟩).1.getClient c).transactions_history
          tx ⟨r.amount, .ChargeBack⟩⟩ := by
      refine (getClient_process_self _ _).trans ?_
      rw [applyToClient_chargeback_found hnl1 hf1, if_neg (by simp)]
    rw [snapshotOf_total, snapshotOf_total, hp2]
    rw [ClientData.held, ClientData.available,
      ClientData.sumWithStatus_aupdate_get _ _ hf1, ClientData.sumWithStatus_aupdate_get _ _ hf1]
    rw [if_pos rfl, if_neg (by simp), if_neg (by simp), if_neg (by simp)]
    rw [add_zero, add_zero, sub_zero, amount_type_to_f64_sub]
    show _ = ((p.process ⟨.Dispute, c, tx, aopt⟩).1.getClient c).held
        + ((p.process ⟨.Dispute, c, tx, aopt⟩).1.getClient c).available
        - amount_type_to_f64 r.amount
    rw [ClientData.held, ClientData.available]
    ring
  · intro ts
    have hlk2 : (((p.process ⟨.Dispute, c, tx, aopt⟩).1.process
        ⟨.Chargeback, c, tx, aopt''⟩).1.getClient c).locked = true := by
      have hp2 : ((p.process ⟨.Dispute, c, tx, aopt⟩).1.process
          ⟨.Chargeback, c, tx, aopt''⟩).1.getClient c =
          ⟨aupdate ((p.process ⟨.Dispute, c, tx, aopt⟩).1.getClient c).transactions_history
            tx ⟨r.amount, .ChargeBack⟩⟩ := by
        refine (getClient_process_self _ _).trans ?_
        rw [applyToClient_chargeback_found hnl1 hf1, if_neg (by simp)]
      rw [hp2]
      exact ClientData.locked_aupdate_chargeback _ _ _
    rw [getClient_processAll_of_locked ts hlk2]
    exact hlk2

/-- Closed witness for C3 at a concrete input. -/
theorem C3_dispute_resolve_chargeback_witness :
    (alookup ((⟨[(1, ⟨[(1, ⟨100000, .Processed⟩)]⟩)]⟩ :
          TransactionsProcessor).getClient 1).transactions_history 1 =
        some ⟨100000, .Processed⟩ ∧
      (⟨100000, (.Processed : TransactionStatus)⟩ : TransactionRecord).status = .Processed ∧
      0 < (⟨100000, (.Processed : TransactionStatus)⟩ : TransactionRecord).amount ∧
      ((⟨[(1, ⟨[(1, ⟨100000, .Processed⟩)]⟩)]⟩ : TransactionsProcessor).process
          ⟨.Dispute, 1, 1, none⟩).2 = .ok ()) ∧
    (((⟨[(1, ⟨[(1, ⟨100000, .Processed⟩)]⟩)]⟩ : TransactionsProcessor).process
        ⟨.Dispute, 1, 1, none⟩).1.process ⟨.Resolve, 1, 1, none⟩).2 = .ok () ∧
    (((⟨[(1, ⟨[(1, ⟨100000, .Processed⟩)]⟩)]⟩ : TransactionsProcessor).process
        ⟨.Dispute, 1, 1, none⟩).1.process ⟨.Chargeback, 1, 1, none⟩).2 = .ok () ∧
    (((((⟨[(1, ⟨[(1, ⟨100000, .Processed⟩)]⟩)]⟩ : TransactionsProcessor).process
        ⟨.Dispute, 1, 1, none⟩).1.process ⟨.Chargeback, 1, 1, none⟩).1.processAll
        []).getClient 1).locked = true :=
  have h := C3_dispute_resolve_chargeback ⟨[(1, ⟨[(1, ⟨100000, .Processed⟩)]⟩)]⟩ 1 1
    ⟨100000, .Processed⟩ none none none (by decide) (by decide) (by decide) (by decide)
  ⟨⟨by decide, by decide, by decide, by decide⟩, h.2.1.1, h.2.2.1, h.2.2.2.2.2 []⟩

/-- C1: in every reachable state, `summary` returns exactly one snapshot per
known client in strictly ascending client-id order, and each snapshot's
`available`/`held` are the decimal forms of the integer sums of stored
amounts over that client's `Processed` / `UnderDispute` records, `total` is
`available + held` (charged-back records contribute to neither), and `locked`
holds exactly when some record of that client has status `ChargeBack`. -/
theorem C1_summary_correct (p : TransactionsProcessor) (hp : Reachable p) :
    (p.summary.map (fun s => s.client)).Pairwise (· < ·) ∧
    (∀ c : ClientId,
      (∃ s ∈ p.summary, s.client = c) ↔ (alookup p.clients_data c).isSome = true) ∧
    (∀ s ∈ p.summary,
      s.available = amount_type_to_f64 ((p.getClient s.client).sumWithStatus .Processed) ∧
      s.held = amount_type_to_f64 ((p.getClient s.client).sumWithStatus .UnderDispute) ∧
      s.total = s.available + s.held ∧
      (s.locked = true ↔ ∃ kv ∈ (p.getClient s.client).transactions_history,
        kv.2.status = .ChargeBack)) := by
  have hnodup := reachable_keysNodup hp
  have hperm : p.summary.Perm (p.clients_data.map
      (fun kv => ({ client := kv.1, available := kv.2.available, held := kv.2.held,
                    total := kv.2.held + kv.2.available,
                    locked := kv.2.locked } : ClientSummary))) :=
    List.perm_insertionSort _ _
  have hsorted : p.summary.Pairwise (fun a b => a.client ≤ b.client) :=
    List.sorted_insertionSort _ _
  have hrowsc : (p.clients_data.map
      (fun kv => ({ client := kv.1, available := kv.2.available, held := kv.2.held,
                    total := kv.2.held + kv.2.available,
                    locked := kv.2.locked } : ClientSummary))).map
        (fun s => s.client) = p.clients_data.map Prod.fst := by
    rw [List.map_map]
    rfl
  have hnodupS : (p.summary.map (fun s => s.client)).Nodup := by
    have := (hperm.map (fun s => s.client)).nodup_iff
    rw [hrowsc] at this
    exact this.mpr hnodup
  have hneq : p.summary.Pairwise (fun a b => a.client ≠ b.client) :=
    List.pairwise_map.mp hnodupS
  refine ⟨?_, ?_, ?_⟩
  · rw [List.pairwise_map]
    exact (hsorted.and hneq).imp (fun h => lt_of_le_of_ne h.1 h.2)
  · intro c
    constructor
    · rintro ⟨s, hs, rfl⟩
      rw [alookup_isSome_iff]
      have hs' := hperm.subset hs
      obtain ⟨kv, hkv, hkvs⟩ := List.mem_map.mp hs'
      have : s.client = kv.1 := by rw [← hkvs]
      rw [this]
      exact List.mem_map.mpr ⟨kv, hkv, rfl⟩
    · intro hsome
      obtain ⟨kv, hkv, hkvc⟩ := List.mem_map.mp (alookup_isSome_iff.mp hsome)
      refine ⟨{ client := kv.1, available := kv.2.available, held := kv.2.held,
                total := kv.2.held + kv.2.available, locked := kv.2.locked }, ?_, hkvc⟩
      exact hperm.mem_iff.mpr (List.mem_map.mpr ⟨kv, hkv, rfl⟩)
  · intro s hs
    obtain ⟨kv, hkv, hkvs⟩ := List.mem_map.mp (hperm.subset hs)
    have hc : s.client = kv.1 := by rw [← hkvs]
    have hget : p.getClient s.client = kv.2 := by
      rw [hc, getClient, alookup_of_mem_of_nodup hnodup hkv]
      rfl
    have hav : s.available = kv.2.available := by rw [← hkvs]
    have hhe : s.held = kv.2.held := by rw [← hkvs]
    have hto : s.total = kv.2.held + kv.2.available := by rw [← hkvs]
    have hlo : s.locked = kv.2.locked := by rw [← hkvs]
    refine ⟨?_, ?_, ?_, ?_⟩
    · rw [hav, hget]
      rfl
    · rw [hhe, hget]
      rfl
    · rw [hto, hav, hhe]
      ring
    · rw [hlo, hget]
      exact ClientData.locked_eq_true_iff kv.2

/-- Closed witness for C1 at a concrete reachable state. -/
theorem C1_summary_correct_witness :
    Reachable (TransactionsProcessor.empty.process ⟨.Deposit, 1, 1, some 1⟩).1 ∧
    (((TransactionsProcessor.empty.process
        ⟨.Deposit, 1, 1, some 1⟩).1.summary.map (fun s => s.client)).Pairwise (· < ·) ∧
      (∀ c : ClientId,
        (∃ s ∈ (TransactionsProcessor.empty.process ⟨.Deposit, 1, 1, some 1⟩).1.summary,
          s.client = c) ↔
        (alookup (TransactionsProcessor.empty.process
          ⟨.Deposit, 1, 1, some 1⟩).1.clients_data c).isSome = true) ∧
      (∀ s ∈ (TransactionsProcessor.empty.process ⟨.Deposit, 1, 1, some 1⟩).1.summary,
        s.available = amount_type_to_f64
          (((TransactionsProcessor.empty.process
            ⟨.Deposit, 1, 1, some 1⟩).1.getClient s.client).sumWithStatus .Processed) ∧
        s.held = amount_type_to_f64
          (((TransactionsProcessor.empty.process
            ⟨.Deposit, 1, 1, some 1⟩).1.getClient s.client).sumWithStatus .UnderDispute) ∧
        s.total = s.available + s.held ∧
        (s.locked = true ↔
          ∃ kv ∈ ((TransactionsProcessor.empty.process
            ⟨.Deposit, 1, 1, some 1⟩).1.getClient s.client).transactions_history,
            kv.2.status = .ChargeBack))) :=
  ⟨Reachable.step TransactionsProcessor.empty ⟨.Deposit, 1, 1, some 1⟩ Reachable.init,
    C1_summary_correct (TransactionsProcessor.empty.process ⟨.Deposit, 1, 1, some 1⟩).1
      (Reachable.step TransactionsProcessor.empty ⟨.Deposit, 1, 1, some 1⟩ Reachable.init)⟩
